import Mathlib

/-!
Verification of the pihole-device-tracker integration.

This file gives a shallow embedding of the data-processing core of the
repository — `coordinator.py` (`_normalize_host`, `_get_arp_table`,
`_async_update_data`) and `device_tracker.py` (`PiholeTracker.is_connected`,
`PiholeTracker.state`) — and proves or refutes the stated properties of
that code.

Conventions of the embedding:
* Python `str` values are modelled as Lean `String`/`List Char`; the Python
  string methods used by the source (`strip`, `split`, `lower`, `replace`,
  `startswith`, `endswith`) are re-implemented structurally on `List Char`
  so that every definition evaluates by kernel reduction.  Python string
  methods are Unicode-aware; the data handled by this program (URLs, MAC
  addresses, `ip neigh` output) is ASCII, and the embedding models the
  ASCII behaviour (`Char.toLower` lower-cases exactly the basic latin
  letters, matching `str.lower` on ASCII input).
* A JSON value that may be absent or `None` is modelled as an `Option`.
* Python `dict`s with string keys are modelled as association lists with
  insert-or-overwrite update, which preserves first-insertion order the
  way a Python dict does.
* Each network interaction of one coordinator tick is modelled by an
  environment of responses, and the (unboundedly recursive) body of
  `_async_update_data` by a fuel-indexed function; exhausted fuel marks a
  run of the Python code that is still recursing at that depth.
-/

/-- Whitespace as used by Python `str.strip()` and `str.split()`:
space, tab, newline, carriage return, vertical tab, form feed. -/
def pyIsSpace (c : Char) : Bool :=
  c = ' ' || c = '\t' || c = '\n' || c = '\r' || c = '\x0b' || c = '\x0c'

/-- Python `str.strip()` on the character list of a string. -/
def pyStripL (l : List Char) : List Char :=
  ((l.dropWhile pyIsSpace).reverse.dropWhile pyIsSpace).reverse

/-- Python `str.lower()` (ASCII behaviour) on the character list. -/
def pyLowerL (l : List Char) : List Char :=
  l.map Char.toLower

/-- Python `str.replace("-", ":")`: a single-character pattern makes
`replace` act character-wise. -/
def dashToColonL (l : List Char) : List Char :=
  l.map fun c => if c = '-' then ':' else c

/-- MAC normalization from `coordinator._get_arp_table`
(`mac = part.lower()` followed by `mac.replace("-", ":")`). -/
def normalizeMac (s : String) : String :=
  ⟨dashToColonL (pyLowerL s.data)⟩

/-- Characters `a` and `b` differ at most by letter case or by the choice
of MAC delimiter (`-` versus `:`). -/
def charCompat (a b : Char) : Bool :=
  a = b || Char.toLower a = Char.toLower b ||
    ((a = '-' || a = ':') && (b = '-' || b = ':'))

/-- Strings `s` and `t` differ only in letter case or in the delimiter
used between octets: same length and position-wise `charCompat`. -/
def sameModuloCaseDelim (s t : String) : Bool :=
  s.data.length = t.data.length &&
    (s.data.zip t.data).all fun p => charCompat p.1 p.2

/-- Python `str.replace(pat, "")` (remove every occurrence, scanning left
to right without rescanning the produced text).  The `Nat` argument counts
pattern characters still to be skipped after a match. -/
def removeAllAux (pat : List Char) : Nat → List Char → List Char
  | _, [] => []
  | k + 1, _ :: rest => removeAllAux pat k rest
  | 0, c :: rest =>
    if pat.isPrefixOf (c :: rest) then removeAllAux pat (pat.length - 1) rest
    else c :: removeAllAux pat 0 rest

/-- Python `s.replace(pat, "")` for a non-empty pattern `pat`. -/
def removeAll (pat : List Char) (l : List Char) : List Char :=
  removeAllAux pat 0 l

/-- Character list of the literal `"http://"`. -/
def httpPat : List Char :=
  ['h', 't', 't', 'p', ':', '/', '/']

/-- Character list of the literal `"https://"`. -/
def httpsPat : List Char :=
  ['h', 't', 't', 'p', 's', ':', '/', '/']

/-- Does the string end with `"/"` (Python `host.endswith("/")`)? -/
def endsSlash (l : List Char) : Bool :=
  match l.getLast? with
  | some c => c = '/'
  | none => false

/-- Value of the local variable `host` in `coordinator._normalize_host`
just before the scheme-prepending step: the input after
`.replace("https://", "").replace("http://", "").strip()` and removal of
one trailing `"/"`. -/
def hostCore (s : String) : List Char :=
  let h := pyStripL (removeAll httpPat (removeAll httpsPat s.data))
  if endsSlash h then h.dropLast else h

/-- Embedding of `PiholeUpdateCoordinator._normalize_host`. -/
def normalizeHost (s : String) : String :=
  let h := hostCore s
  if httpPat.isPrefixOf h || httpsPat.isPrefixOf h then ⟨h⟩
  else ⟨httpPat ++ h⟩

/-- Python `str.split()` with no argument: maximal runs of non-whitespace
characters.  The first argument accumulates the current token, reversed. -/
def pyWordsAux : List Char → List Char → List (List Char)
  | cur, [] => if cur.isEmpty then [] else [cur.reverse]
  | cur, c :: rest =>
    if pyIsSpace c then
      if cur.isEmpty then pyWordsAux [] rest
      else cur.reverse :: pyWordsAux [] rest
    else pyWordsAux (c :: cur) rest

/-- Python `line.split()`. -/
def pyWords (l : List Char) : List (List Char) :=
  pyWordsAux [] l

/-- Python `str.split("\n")` (split on every newline, keeping empty
pieces). -/
def splitLines : List Char → List (List Char)
  | [] => [[]]
  | c :: rest =>
    match splitLines rest with
    | [] => [[c]]
    | g :: gs => if c = '\n' then [] :: g :: gs else (c :: g) :: gs

/-- Lower-case hexadecimal digit, the character class `[0-9a-f]` of the
MAC regular expression. -/
def isHexLower (c : Char) : Bool :=
  ('0' ≤ c && c ≤ '9') || ('a' ≤ c && c ≤ 'f')

/-- Delimiter class `[:-]` of the MAC regular expression. -/
def isMacSep (c : Char) : Bool :=
  c = ':' || c = '-'

/-- Full match of the regular expression
`^([0-9a-f]{2}[:-]){5}[0-9a-f]{2}$` from `coordinator._get_arp_table`:
exactly 17 characters, hex pairs separated by `:` or `-`. -/
def isMacToken : List Char → Bool
  | [a1, a2, s1, b1, b2, s2, c1, c2, s3, d1, d2, s4, e1, e2, s5, f1, f2] =>
    isHexLower a1 && isHexLower a2 && isMacSep s1 &&
    isHexLower b1 && isHexLower b2 && isMacSep s2 &&
    isHexLower c1 && isHexLower c2 && isMacSep s3 &&
    isHexLower d1 && isHexLower d2 && isMacSep s4 &&
    isHexLower e1 && isHexLower e2 && isMacSep s5 &&
    isHexLower f1 && isHexLower f2
  | _ => false

/-- Normalized value shape produced by `_get_arp_table`: 17 characters,
lower-case hex pairs separated by `:` only. -/
def isColonMacL : List Char → Bool
  | [a1, a2, s1, b1, b2, s2, c1, c2, s3, d1, d2, s4, e1, e2, s5, f1, f2] =>
    isHexLower a1 && isHexLower a2 && s1 = ':' &&
    isHexLower b1 && isHexLower b2 && s2 = ':' &&
    isHexLower c1 && isHexLower c2 && s3 = ':' &&
    isHexLower d1 && isHexLower d2 && s4 = ':' &&
    isHexLower e1 && isHexLower e2 && s5 = ':' &&
    isHexLower f1 && isHexLower f2
  | _ => false

/-- `isColonMacL` on the characters of a string. -/
def isColonMac (s : String) : Bool :=
  isColonMacL s.data

/-- Parse of one line of the remote command output, lines 144-164 of
`coordinator.py`: strip the line, skip it when empty, split into
whitespace-separated fields, and when there are at least five fields take
`parts[0]` as the IP and the first field whose lower-casing matches the
MAC regular expression as the MAC, normalized with `-` replaced by `:`. -/
def lineEntry (line : List Char) : Option (String × String) :=
  let l := pyStripL line
  if l.isEmpty then none
  else
    let parts := pyWords l
    if 5 ≤ parts.length then
      match parts.find? (fun p => isMacToken (pyLowerL p)) with
      | some p =>
        match parts with
        | ip :: _ => some (⟨ip⟩, ⟨dashToColonL (pyLowerL p)⟩)
        | [] => none
      | none => none
    else none

/-- Python `dict` insert-or-overwrite for an association list: an existing
key keeps its position and gets the new value, a new key is appended. -/
def upsertA (m : List (String × String)) (k v : String) : List (String × String) :=
  if m.any (fun p => p.1 == k) then
    m.map fun p => if p.1 == k then (p.1, v) else p
  else m ++ [(k, v)]

/-- Embedding of the parsing loop of
`PiholeUpdateCoordinator._get_arp_table`: `stdout.strip().split("\n")`,
one `lineEntry` per line, accumulated into `arp_map` (a dict keyed by
IP). -/
def parseArp (stdout : String) : List (String × String) :=
  (splitLines (pyStripL stdout.data)).foldl
    (fun m line =>
      match lineEntry line with
      | some e => upsertA m e.1 e.2
      | none => m)
    []

/-- A DHCP lease as consumed by `_async_update_data`: the fields read via
`lease.get(...)`, each possibly absent (or `None`) in the JSON. -/
structure Lease where
  hwaddr : String
  ip : Option String := none
  name : Option String := none
  expires : Option Int := none
deriving DecidableEq, Repr

/-- One element of a device record's `ips` array. -/
structure IpEntry where
  ip : Option String := none
  name : Option String := none
deriving DecidableEq, Repr

/-- A device-activity record as consumed by `_async_update_data`. -/
structure Device where
  hwaddr : String
  interface : Option String := none
  firstSeen : Option Int := none
  lastQuery : Option Int := none
  numQueries : Option Int := none
  macVendor : Option String := none
  ips : List IpEntry := []
deriving DecidableEq, Repr

/-- One value of the `merged` dict before the final formatting step.
Python stores the IPs in a `set` that may contain `None` (when a lease
lacks `"ip"`); the set is modelled as a duplicate-free list of
`Option String`.  A key that is absent and a key holding `None` are read
back identically through `.get`, so both are modelled as `none`. -/
structure Entry where
  ips : List (Option String) := []
  name : Option String := none
  dhcpExpires : Option Int := none
  interface : Option String := none
  firstSeen : Option Int := none
  lastQuery : Option Int := none
  numQueries : Option Int := none
  macVendor : Option String := none
deriving DecidableEq, Repr

/-- Python `set.add`: insert unless already present. -/
def insertIp (l : List (Option String)) (x : Option String) : List (Option String) :=
  if x ∈ l then l else l ++ [x]

/-- Python truthiness of an optional string (`None` and `""` are falsy). -/
def strTruthy : Option String → Bool
  | some s => !s.isEmpty
  | none => false

/-- Generic dict insert-or-update: an existing key keeps its position and
is updated with `f`, a missing key is appended as `f dflt`.  This models
`merged.setdefault(mac, dflt)` followed by in-place mutation of the
returned entry. -/
def upsertWith (m : List (String × Entry)) (k : String) (dflt : Entry)
    (f : Entry → Entry) : List (String × Entry) :=
  if m.any (fun p => p.1 == k) then
    m.map fun p => if p.1 == k then (p.1, f p.2) else p
  else m ++ [(k, f dflt)]

/-- Python `dict.get` on an association list. -/
def lookupA {β : Type} (m : List (String × β)) (k : String) : Option β :=
  match m.find? (fun p => p.1 == k) with
  | some p => some p.2
  | none => none

/-- Lines 205-213 of `coordinator.py`: one iteration of the lease loop.
The key is `lease.get("hwaddr", "").lower()`; an empty key is skipped;
`entry["ips"].add(lease.get("ip"))` may add `None`; the name is stored
only when truthy and different from `"*"`; `dhcp_expires` is always
overwritten with `lease.get("expires")`. -/
def applyLease (m : List (String × Entry)) (l : Lease) : List (String × Entry) :=
  let mac : String := ⟨pyLowerL l.hwaddr.data⟩
  if mac.isEmpty then m
  else
    upsertWith m mac {} fun e =>
      { e with
        ips := insertIp e.ips l.ip
        name := if strTruthy l.name && l.name ≠ some "*" then l.name else e.name
        dhcpExpires := l.expires }

/-- Line 229 of `coordinator.py`, `if ip := ip_entry.get("ip")`: add the
IP to the entry's set only when it is truthy. -/
def addIp (e : Entry) (o : Option String) : Entry :=
  match o with
  | some ip => if ip.isEmpty then e else { e with ips := insertIp e.ips (some ip) }
  | none => e

/-- Lines 228-232 of `coordinator.py`: one iteration over `dev["ips"]`.
An IP is added only when truthy; the per-IP name is stored only when the
entry has no truthy name yet and the new name is truthy and not `"*"`. -/
def applyIpEntry (e : Entry) (pe : IpEntry) : Entry :=
  let e1 := addIp e pe.ip
  if !strTruthy e1.name && strTruthy pe.name && pe.name ≠ some "*" then
    { e1 with name := pe.name }
  else e1

/-- Lines 215-232 of `coordinator.py`: one iteration of the device loop. -/
def applyDevice (m : List (String × Entry)) (d : Device) : List (String × Entry) :=
  let mac : String := ⟨pyLowerL d.hwaddr.data⟩
  if mac.isEmpty then m
  else
    upsertWith m mac {} fun e =>
      (d.ips.foldl applyIpEntry
        { e with
          interface := d.interface
          firstSeen := d.firstSeen
          lastQuery := d.lastQuery
          numQueries := d.numQueries
          macVendor := d.macVendor })

/-- Lines 201-232 of `coordinator.py`: build `merged` from the leases and
devices arrays. -/
def mergeLeasesDevices (leases : List Lease) (devices : List Device) :
    List (String × Entry) :=
  devices.foldl applyDevice (leases.foldl applyLease [])

/-- Lines 236-243 of `coordinator.py`: for every merged entry, add every
ARP IP whose MAC equals the entry key (the `if ip not in info["ips"]`
guard is subsumed by set insertion). -/
def applyArp (arp : List (String × String)) (m : List (String × Entry)) :
    List (String × Entry) :=
  m.map fun p =>
    (p.1,
      { p.2 with
        ips := arp.foldl (fun s q => if q.2 == p.1 then insertIp s (some q.1) else s) p.2.ips })

/-- Lexicographic code-point comparison, Python `<=` on strings
restricted to what `sorted` needs. -/
def charListLe : List Char → List Char → Bool
  | [], _ => true
  | _ :: _, [] => false
  | a :: as, b :: bs =>
    if a.toNat < b.toNat then true
    else if b.toNat < a.toNat then false
    else charListLe as bs

/-- Insertion into a sorted list, for the model of Python `sorted`. -/
def insertLe (x : String) : List String → List String
  | [] => [x]
  | y :: ys => if charListLe x.data y.data then x :: y :: ys else y :: insertLe x ys

/-- Model of Python `sorted` on a list of strings (insertion sort; on the
duplicate-free element list of a set any comparison sort computes the
same ascending sequence). -/
def sortStrings (l : List String) : List String :=
  l.foldr insertLe []

/-- Python `", ".join(l)`. -/
def joinCommaSpace : List String → String
  | [] => ""
  | [x] => x
  | x :: xs => x ++ ", " ++ joinCommaSpace xs

/-- One value of the published coordinator data, after line 248 of
`coordinator.py` replaced the IP set by a sorted comma-joined string. -/
structure FEntry where
  ips : String := ""
  name : Option String := none
  dhcpExpires : Option Int := none
  interface : Option String := none
  firstSeen : Option Int := none
  lastQuery : Option Int := none
  numQueries : Option Int := none
  macVendor : Option String := none
deriving DecidableEq, Repr

/-- Line 248 of `coordinator.py`,
`info["ips"] = ", ".join(sorted(info["ips"]))`, for one entry.  When the
set contains `None` the Python expression raises a `TypeError` (either
`sorted` compares `None` with a `str`, or `join` receives the lone
`None`); the raise is modelled by `none`. -/
def formatEntry (e : Entry) : Option FEntry :=
  if none ∈ e.ips then none
  else
    some
      { ips := joinCommaSpace (sortStrings (e.ips.filterMap id))
        name := e.name
        dhcpExpires := e.dhcpExpires
        interface := e.interface
        firstSeen := e.firstSeen
        lastQuery := e.lastQuery
        numQueries := e.numQueries
        macVendor := e.macVendor }

/-- Lines 247-248 of `coordinator.py`: format every entry; the first
`TypeError` aborts the loop (modelled by `none` for the whole map). -/
def formatMap : List (String × Entry) → Option (List (String × FEntry))
  | [] => some []
  | p :: rest =>
    match formatEntry p.2, formatMap rest with
    | some fe, some frest => some ((p.1, fe) :: frest)
    | _, _ => none

/-- Python `str.split(sep)` for a multi-character separator, used by
`is_connected` as `ips.split(", ")`.  Arguments: characters of the
separator still to skip, current piece (reversed), remaining input. -/
def splitSeqAux (sep : List Char) : Nat → List Char → List Char → List (List Char)
  | _, cur, [] => [cur.reverse]
  | k + 1, cur, _ :: rest => splitSeqAux sep k cur rest
  | 0, cur, c :: rest =>
    if sep.isPrefixOf (c :: rest) then
      cur.reverse :: splitSeqAux sep (sep.length - 1) [] rest
    else splitSeqAux sep 0 (c :: cur) rest

/-- Python `s.split(sep)` for a non-empty separator. -/
def splitSeq (sep : List Char) (l : List Char) : List (List Char) :=
  splitSeqAux sep 0 [] l

/-- Home Assistant `STATE_HOME`. -/
def STATE_HOME : String := "home"

/-- Home Assistant `STATE_NOT_HOME`. -/
def STATE_NOT_HOME : String := "not_home"

/-- IPs of a published device record as `is_connected` walks them: when
the joined string is non-empty, split it on `", "` and strip each piece
(lines 110-113 of `device_tracker.py`); an empty string, being falsy,
contributes no IPs. -/
def entryIps (info : FEntry) : List String :=
  if info.ips.isEmpty then []
  else (splitSeq [',', ' '] info.ips.data).map fun ip => ⟨pyStripL ip⟩

/-- Python `ip in dict` for the ARP cache. -/
def arpHasKey (arp : List (String × String)) (ip : String) : Bool :=
  arp.any fun p => p.1 == ip

/-- Embedding of `PiholeTracker.is_connected` (lines 101-122 of
`device_tracker.py`): false when the MAC is not in the coordinator data;
true when any of the entry's IPs is a key of the coordinator's ARP cache;
otherwise `(now - last) <= away` when `last_query` is a number, and false
when it is absent or non-numeric.  Timestamps are modelled as integers. -/
def is_connected (data : List (String × FEntry)) (mac : String)
    (arp : List (String × String)) (now away : Int) : Bool :=
  match lookupA data mac with
  | none => false
  | some info =>
    if (entryIps info).any (fun ip => arpHasKey arp ip) then true
    else
      match info.lastQuery with
      | some last => decide (now - last ≤ away)
      | none => false

/-- Kinds of Python attribute values relevant to `PiholeTracker.state`. -/
inductive PyAttrVal : Type
  | boundMethod : PyAttrVal
  | pyBool : Bool → PyAttrVal
deriving DecidableEq

/-- Python truthiness: a bound-method object is always truthy. -/
def pyTruthy : PyAttrVal → Bool
  | .boundMethod => true
  | .pyBool b => b

/-- Value of the attribute access `self.is_connected` inside
`PiholeTracker.state`: `is_connected` is declared as a plain method (line
101 of `device_tracker.py`, no `@property`), so the access yields the
bound-method object, not the result of calling it. -/
def isConnectedAttr : PyAttrVal :=
  .boundMethod

/-- Embedding of the `state` property, line 127 of `device_tracker.py`:
`STATE_HOME if self.is_connected else STATE_NOT_HOME`.  The condition
tests the truthiness of `isConnectedAttr`; the coordinator data, ARP
cache and times are in scope but never consulted. -/
def trackerState (_data : List (String × FEntry)) (_mac : String)
    (_arp : List (String × String)) (_now _away : Int) : String :=
  if pyTruthy isConnectedAttr then STATE_HOME else STATE_NOT_HOME

/-- Response of one `GET` to a data endpoint: a JSON payload, an HTTP 401,
or an `aiohttp.ClientError`/`asyncio.TimeoutError`. -/
inductive FetchResult (α : Type) : Type
  | ok : α → FetchResult α
  | unauthorized : FetchResult α
  | netErr : FetchResult α

/-- Responses of the Pi-hole server and the SSH host during one tick.
`auth` is the outcome of `POST /api/auth` (`none` covers every failure
path of `_authenticate`: HTTP error, non-200 status, missing or empty
`sid`); the data endpoints may answer differently depending on the
session id presented; `arpOut` is the text an ARP fetch would yield
(`none` when SSH is unconfigured or failed, which `_get_arp_table` maps
to an empty table). -/
structure Env : Type where
  auth : Option String
  leases : String → FetchResult (List Lease)
  devices : String → FetchResult (List Device)
  arpOut : Option String

/-- ARP table obtained by `_get_arp_table` under environment `env`. -/
def envArp (env : Env) : List (String × String) :=
  match env.arpOut with
  | some out => parseArp out
  | none => []

/-- Result of one call to `_async_update_data`: a returned merged map, a
raised `UpdateFailed`, an uncaught `TypeError` from the formatting step,
or exhaustion of the recursion budget of the model. -/
inductive TickOutcome : Type
  | ok : List (String × FEntry) → TickOutcome
  | failed : TickOutcome
  | typeError : TickOutcome
  | outOfFuel : TickOutcome
deriving DecidableEq

/-- A run of `_async_update_data`: its outcome, the number of
`_authenticate` calls it performed, and whether it hit a failed
authentication or a client error/timeout. -/
structure TickRun : Type where
  outcome : TickOutcome
  nAuth : Nat
  sawAuthFail : Bool
  sawNetErr : Bool
deriving DecidableEq

/-- Embedding of `PiholeUpdateCoordinator._async_update_data` (lines
173-251 of `coordinator.py`).  `sid` is the cached `self._sid`.  When it
is unset, authenticate once, raising `UpdateFailed` on failure.  Fetch
leases, then devices; a 401 clears the session id and re-enters the whole
method (`return await self._async_update_data()`); a client error or
timeout raises `UpdateFailed`.  On success merge, enrich with ARP,
format.  The fuel argument bounds the modelled recursion depth only; the
Python source has no such bound.  `tickStep` is the part of the method
after the session id is settled (`r` is the run the 401 branches would
re-enter with the session id cleared, and `a` the number of
authentication calls made on the way in); a run out of fuel is a run of
the source still recursing at that depth. -/
def tickStep (env : Env) (r : TickRun) (s : String) (a : Nat) : TickRun :=
  match env.leases s with
  | .unauthorized => ⟨r.outcome, a + r.nAuth, r.sawAuthFail, r.sawNetErr⟩
  | .netErr => ⟨.failed, a, false, true⟩
  | .ok ls =>
    match env.devices s with
    | .unauthorized => ⟨r.outcome, a + r.nAuth, r.sawAuthFail, r.sawNetErr⟩
    | .netErr => ⟨.failed, a, false, true⟩
    | .ok ds =>
      match formatMap (applyArp (envArp env) (mergeLeasesDevices ls ds)) with
      | some fm => ⟨.ok fm, a, false, false⟩
      | none => ⟨.typeError, a, false, false⟩

def tickAux (env : Env) : Nat → Option String → TickRun
  | 0, _ => ⟨.outOfFuel, 0, false, false⟩
  | fuel + 1, sid =>
    match sid with
    | some s => tickStep env (tickAux env fuel none) s 0
    | none =>
      match env.auth with
      | none => ⟨.failed, 1, true, false⟩
      | some s => tickStep env (tickAux env fuel none) s 1

/-- Server that always authenticates successfully and answers every data
request with HTTP 401: each retry of the tick re-authenticates and
retries again. -/
def alwaysExpiredEnv : Env :=
  { auth := some "sid"
    leases := fun _ => .unauthorized
    devices := fun _ => .ok []
    arpOut := none }

/-- Server whose lease list contains one lease without an `"ip"` value:
authentication and both fetches succeed, and the formatting step then
raises a `TypeError`. -/
def noIpLeaseEnv : Env :=
  { auth := some "sid"
    leases := fun _ => .ok [{ hwaddr := "AA:BB:CC:DD:EE:FF" }]
    devices := fun _ => .ok []
    arpOut := none }

/-- Healthy server: authentication succeeds and both endpoints answer. -/
def healthyEnv : Env :=
  { auth := some "sid"
    leases := fun _ => .ok [{ hwaddr := "aa:bb:cc:dd:ee:ff", ip := some "192.168.0.7" }]
    devices := fun _ => .ok []
    arpOut := none }

/-- Combined per-character action of `normalizeMac`: lower-case, then
turn a dash into a colon. -/
def macNormChar (c : Char) : Char :=
  if Char.toLower c = '-' then ':' else Char.toLower c

/-- Value attached to the last pair with key `k` in a list of parsed
`ip`/`mac` pairs — the value a dict built from the pairs would hold. -/
def lastVal (k : String) : List (String × String) → Option String
  | [] => none
  | e :: rest =>
    match lastVal k rest with
    | some v => some v
    | none => if e.1 == k then some e.2 else none

/-! Theorems.  Each claim of the specification gets one theorem below;
auxiliary lemmas carry their own names. -/

/-- Auxiliary: against a server that always re-authenticates successfully
and answers every leases request with 401, a run of `_async_update_data`
starting without a session id performs one authentication per available
recursion level and never terminates. -/
theorem tickAux_alwaysExpired_none :
    ∀ n, tickAux alwaysExpiredEnv n none = ⟨.outOfFuel, n, false, false⟩
  | 0 => rfl
  | n + 1 => by
    have ih := tickAux_alwaysExpired_none n
    simp only [alwaysExpiredEnv] at ih
    simp [tickAux, tickStep, alwaysExpiredEnv, ih]
    omega

/-- C1: the claim "a 401 response triggers exactly one re-authentication
attempt before the update gives up; the sequence of network calls per
tick is bounded" fails on the code.  With a cached session id and a
server whose authentication always succeeds while the leases endpoint
answers 401 to every request, the tick recurses forever: at every
recursion depth `n + 1` it has already performed `n` re-authentication
attempts and has neither raised `UpdateFailed` nor returned.  The code
has no retry counter (`coordinator.py` line 188 re-enters
`_async_update_data` unconditionally). -/
theorem tick_reauth_unbounded (n : Nat) :
    tickAux alwaysExpiredEnv (n + 1) (some "cached") = ⟨.outOfFuel, n, false, false⟩ := by
  have h := tickAux_alwaysExpired_none n
  simp only [alwaysExpiredEnv] at h
  simp [tickAux, tickStep, alwaysExpiredEnv, h]

/-- C3: `PiholeTracker.state` returns `STATE_HOME` for every coordinator
state, because line 127 tests the truthiness of the bound-method object
`self.is_connected` instead of calling it; in particular it returns
`STATE_HOME` even on a record whose `is_connected()` result is `False`
(stale `last_query`, empty ARP cache). -/
theorem state_always_home :
    (∀ data mac arp now away, trackerState data mac arp now away = STATE_HOME) ∧
    is_connected [("aa:bb", { ips := "10.0.0.2", lastQuery := some 0 })]
        "aa:bb" [] 100000 900 = false ∧
    trackerState [("aa:bb", { ips := "10.0.0.2", lastQuery := some 0 })]
        "aa:bb" [] 100000 900 = STATE_HOME :=
  ⟨fun _ _ _ _ _ => rfl, by decide, rfl⟩

/-- Auxiliary: unfolding of `Char.toLower`. -/
theorem toLower_def (c : Char) :
    Char.toLower c = if 65 ≤ c.toNat ∧ c.toNat ≤ 90 then Char.ofNat (c.toNat + 32) else c :=
  rfl

/-- Auxiliary: `Char.ofNat` below the surrogate range round-trips. -/
theorem char_toNat_ofNat {n : Nat} (h : n < 55296) : (Char.ofNat n).toNat = n := by
  rw [Char.ofNat, dif_pos (Or.inl h)]
  simp [Char.ofNatAux, Char.toNat, UInt32.toNat]

/-- Auxiliary: `Char.toLower` fixes characters outside `A`-`Z`. -/
theorem toLower_eq_self {c : Char} (h : ¬(65 ≤ c.toNat ∧ c.toNat ≤ 90)) :
    Char.toLower c = c := by
  rw [toLower_def, if_neg h]

/-- Auxiliary: the result of `Char.toLower` is never in `A`-`Z`. -/
theorem toLower_toNat_not_upper (c : Char) :
    ¬(65 ≤ (Char.toLower c).toNat ∧ (Char.toLower c).toNat ≤ 90) := by
  rw [toLower_def]
  by_cases h : 65 ≤ c.toNat ∧ c.toNat ≤ 90
  · rw [if_pos h, char_toNat_ofNat (by omega)]
    omega
  · rw [if_neg h]
    exact h

/-- Auxiliary: `Char.toLower` is idempotent. -/
theorem toLower_idem (c : Char) : Char.toLower (Char.toLower c) = Char.toLower c :=
  toLower_eq_self (toLower_toNat_not_upper c)

/-- Auxiliary: the character lists of `normalizeMac`. -/
theorem normalizeMac_data (s : String) :
    (normalizeMac s).data = s.data.map macNormChar := by
  simp only [normalizeMac, dashToColonL, pyLowerL, List.map_map]
  rfl

/-- Auxiliary: `macNormChar` is idempotent. -/
theorem macNormChar_idem (c : Char) : macNormChar (macNormChar c) = macNormChar c := by
  by_cases h : Char.toLower c = '-'
  · have h1 : macNormChar c = ':' := by simp [macNormChar, h]
    rw [h1]
    decide
  · have h1 : macNormChar c = Char.toLower c := by simp [macNormChar, h]
    rw [h1]
    simp [macNormChar, toLower_idem c, h]

/-- Auxiliary: compatible characters normalize identically. -/
theorem macNormChar_eq_of_compat {a b : Char} (h : charCompat a b = true) :
    macNormChar a = macNormChar b := by
  simp only [charCompat, Bool.or_eq_true, Bool.and_eq_true, decide_eq_true_eq] at h
  rcases h with (h | h) | ⟨ha, hb⟩
  · rw [h]
  · simp [macNormChar, h]
  · rcases ha with ha | ha <;> rcases hb with hb | hb <;> subst ha <;> subst hb <;> decide

/-- Auxiliary: shape of a normalized character: not a dash, not upper
case. -/
theorem macNormChar_shape (c : Char) :
    macNormChar c ≠ '-' ∧ ¬(65 ≤ (macNormChar c).toNat ∧ (macNormChar c).toNat ≤ 90) := by
  by_cases h : Char.toLower c = '-'
  · have h1 : macNormChar c = ':' := by simp [macNormChar, h]
    rw [h1]
    exact ⟨by decide, by decide⟩
  · have h1 : macNormChar c = Char.toLower c := by simp [macNormChar, h]
    rw [h1]
    exact ⟨h, toLower_toNat_not_upper c⟩

/-- Auxiliary: position-wise compatible character lists normalize to the
same list. -/
theorem map_macNormChar_eq_of_compat :
    ∀ (l1 l2 : List Char), l1.length = l2.length →
      ((l1.zip l2).all fun p => charCompat p.1 p.2) = true →
      l1.map macNormChar = l2.map macNormChar
  | [], [], _, _ => rfl
  | [], _ :: _, hl, _ => by simp at hl
  | _ :: _, [], hl, _ => by simp at hl
  | a :: as, b :: bs, hl, hc => by
    simp only [List.zip_cons_cons, List.all_cons, Bool.and_eq_true] at hc
    simp only [List.length_cons, Nat.succ.injEq] at hl
    simp only [List.map_cons]
    rw [macNormChar_eq_of_compat hc.1, map_macNormChar_eq_of_compat as bs hl hc.2]

/-- C5: hardware-address normalization (`part.lower().replace("-", ":")`
in `_get_arp_table`) is idempotent; two strings that differ only in
letter case or in using `-` versus `:` as delimiter normalize to the same
string; and the output is in lower-case colon-separated form (it contains
no dash and no upper-case ASCII letter). -/
theorem normalizeMac_idem_case_delim_insensitive :
    (∀ s, normalizeMac (normalizeMac s) = normalizeMac s) ∧
    (∀ s t, sameModuloCaseDelim s t = true → normalizeMac s = normalizeMac t) ∧
    (∀ s, ∀ c ∈ (normalizeMac s).data, c ≠ '-' ∧ ¬(65 ≤ c.toNat ∧ c.toNat ≤ 90)) := by
  refine ⟨fun s => ?_, fun s t h => ?_, fun s c hc => ?_⟩
  · apply String.ext
    rw [normalizeMac_data, normalizeMac_data, List.map_map]
    exact List.map_congr_left fun c _ => macNormChar_idem c
  · apply String.ext
    rw [normalizeMac_data, normalizeMac_data]
    simp only [sameModuloCaseDelim, Bool.and_eq_true, decide_eq_true_eq] at h
    exact map_macNormChar_eq_of_compat _ _ h.1 h.2
  · rw [normalizeMac_data] at hc
    obtain ⟨a, _, rfl⟩ := List.mem_map.mp hc
    exact macNormChar_shape a

/-- Witness for C5 at concrete inputs: an upper-case dash-separated MAC
and its lower-case colon-separated form normalize to the same string. -/
theorem normalizeMac_idem_case_delim_insensitive_witness :
    normalizeMac "AA-BB-CC-DD-EE-FF" = normalizeMac "aa:bb:cc:dd:ee:ff" ∧
    normalizeMac "aa:bb:cc:dd:ee:ff" = "aa:bb:cc:dd:ee:ff" :=
  ⟨normalizeMac_idem_case_delim_insensitive.2.1 _ _ (by decide), by decide⟩

/-- Auxiliary: skipping `k` characters of a length-`k` block. -/
theorem removeAllAux_skip (pat : List Char) :
    ∀ (xs t : List Char) (k : Nat), xs.length = k →
      removeAllAux pat k (xs ++ t) = removeAllAux pat 0 t
  | [], t, k, hk => by subst hk; rfl
  | x :: xs, t, k, hk => by
    subst hk
    show removeAllAux pat (xs.length + 1) (x :: (xs ++ t)) = removeAllAux pat 0 t
    rw [show removeAllAux pat (xs.length + 1) (x :: (xs ++ t))
          = removeAllAux pat xs.length (xs ++ t) from rfl]
    exact removeAllAux_skip pat xs t xs.length rfl

/-- Auxiliary: `replace(pat, "")` is the identity on a string with no
occurrence of the pattern. -/
theorem removeAll_no_occurrence {pat : List Char} :
    ∀ {l : List Char}, ¬ pat <:+: l → removeAll pat l = l := by
  intro l
  induction l with
  | nil => intro _; rfl
  | cons c rest ih =>
    intro h
    show removeAllAux pat 0 (c :: rest) = c :: rest
    rw [removeAllAux]
    rw [if_neg]
    · have hrest : ¬ pat <:+: rest := by
        intro hi
        obtain ⟨t, u, he⟩ := hi
        exact h ⟨c :: t, u, by rw [← he]; rfl⟩
      have := ih hrest
      rw [removeAll] at this
      rw [this]
    · intro hb
      exact h (List.IsPrefix.isInfix (List.isPrefixOf_iff_prefix.mp hb))

/-- Auxiliary: `replace(pat, "")` removes a leading occurrence of the
pattern. -/
theorem removeAll_append_self (p : Char) (ps t : List Char) :
    removeAll (p :: ps) ((p :: ps) ++ t) = removeAll (p :: ps) t := by
  have hp : (p :: ps).isPrefixOf (p :: (ps ++ t)) = true :=
    List.isPrefixOf_iff_prefix.mpr ⟨t, rfl⟩
  show removeAllAux (p :: ps) 0 (p :: (ps ++ t)) = removeAllAux (p :: ps) 0 t
  rw [removeAllAux, if_pos hp]
  have hl : (p :: ps).length - 1 = ps.length := by simp
  rw [hl]
  exact removeAllAux_skip (p :: ps) ps t ps.length rfl

/-- Auxiliary: `removeAll_append_self` stated for the `"http://"`
pattern. -/
theorem removeAll_http_append (t : List Char) :
    removeAll httpPat (httpPat ++ t) = removeAll httpPat t :=
  removeAll_append_self 'h' ['t', 't', 'p', ':', '/', '/'] t

/-- Auxiliary: prepending `"http://"` cannot create an occurrence of
`"https://"`. -/
theorem not_https_infix_http_append {l : List Char} (h : ¬ httpsPat <:+: l) :
    ¬ httpsPat <:+: (httpPat ++ l) := by
  rintro ⟨t, u, he⟩
  rcases t with _ | ⟨c1, _ | ⟨c2, _ | ⟨c3, _ | ⟨c4, _ | ⟨c5, _ | ⟨c6, _ | ⟨c7, t⟩⟩⟩⟩⟩⟩⟩
  · simp [httpPat, httpsPat] at he
  · simp [httpPat, httpsPat] at he
  · simp [httpPat, httpsPat] at he
  · simp [httpPat, httpsPat] at he
  · simp [httpPat, httpsPat] at he
  · simp [httpPat, httpsPat] at he
  · simp [httpPat, httpsPat] at he
  · simp only [httpPat, httpsPat, List.cons_append, List.nil_append,
      List.cons.injEq] at he
    exact h ⟨t, u, by rw [List.append_assoc] at he ⊢; exact he.2.2.2.2.2.2.2⟩

/-- Auxiliary: `endswith("/")` is false when the last character is not a
slash. -/
theorem endsSlash_eq_false {l : List Char} (h : l.getLast? ≠ some '/') :
    endsSlash l = false := by
  unfold endsSlash
  cases hl : l.getLast? with
  | none => rfl
  | some c =>
    rw [hl] at h
    simp only [decide_eq_false_iff_not]
    intro hc
    exact h (by rw [hc])

/-- C10 counterexample: on the input `""` the function returns
`"http://"`, which ends with `"/"`; the claim that the result never ends
with `"/"` for every input host string is false on the code. -/
theorem normalizeHost_counterexample :
    normalizeHost "" = "http://" ∧ (normalizeHost "").data.getLast? = some '/' := by
  constructor <;> decide

/-- C10 (amended): for a host whose scheme-stripped core (the value after
removing every `"https://"` and `"http://"` occurrence, stripping
whitespace and dropping one trailing slash) is non-empty, contains no
scheme occurrence, is already stripped, and does not end with `"/"`, the
result is exactly `"http://"` followed by the core — so it starts with
`"http://"` (an `"https://"` input is rewritten to plain `"http://"`),
does not end with `"/"`, and the function is idempotent there. -/
theorem normalizeHost_wellformed (s : String)
    (h1 : hostCore s ≠ [])
    (h2 : ¬ httpPat <:+: hostCore s)
    (h3 : ¬ httpsPat <:+: hostCore s)
    (h4 : pyStripL (hostCore s) = hostCore s)
    (h5 : (hostCore s).getLast? ≠ some '/') :
    normalizeHost s = ⟨httpPat ++ hostCore s⟩ ∧
    httpPat <+: (normalizeHost s).data ∧
    (normalizeHost s).data.getLast? ≠ some '/' ∧
    normalizeHost (normalizeHost s) = normalizeHost s := by
  have e1 : httpPat.isPrefixOf (hostCore s) = false := by
    rw [Bool.eq_false_iff]
    intro hb
    exact h2 (List.IsPrefix.isInfix (List.isPrefixOf_iff_prefix.mp hb))
  have e2 : httpsPat.isPrefixOf (hostCore s) = false := by
    rw [Bool.eq_false_iff]
    intro hb
    exact h3 (List.IsPrefix.isInfix (List.isPrefixOf_iff_prefix.mp hb))
  have hmain : normalizeHost s = ⟨httpPat ++ hostCore s⟩ := by
    show (if httpPat.isPrefixOf (hostCore s) || httpsPat.isPrefixOf (hostCore s)
          then (⟨hostCore s⟩ : String) else ⟨httpPat ++ hostCore s⟩)
        = ⟨httpPat ++ hostCore s⟩
    rw [e1, e2]
    rfl
  have hdata : (normalizeHost s).data = httpPat ++ hostCore s := by rw [hmain]
  have hstep : removeAll httpPat (removeAll httpsPat (normalizeHost s).data)
      = hostCore s := by
    rw [hdata]
    rw [removeAll_no_occurrence (not_https_infix_http_append h3)]
    rw [removeAll_http_append]
    exact removeAll_no_occurrence h2
  have hcore2 : hostCore (normalizeHost s) = hostCore s := by
    show (let h := pyStripL (removeAll httpPat (removeAll httpsPat (normalizeHost s).data))
          if endsSlash h then h.dropLast else h)
        = hostCore s
    rw [hstep, h4]
    show (if endsSlash (hostCore s) then (hostCore s).dropLast else hostCore s) = hostCore s
    rw [endsSlash_eq_false h5]
    simp
  refine ⟨hmain, ?_, ?_, ?_⟩
  · rw [hdata]
    exact ⟨hostCore s, rfl⟩
  · rw [hdata]
    rw [List.getLast?_append_of_ne_nil _ h1]
    exact h5
  · have hform : normalizeHost (normalizeHost s)
        = (if httpPat.isPrefixOf (hostCore (normalizeHost s))
              || httpsPat.isPrefixOf (hostCore (normalizeHost s))
           then (⟨hostCore (normalizeHost s)⟩ : String)
           else ⟨httpPat ++ hostCore (normalizeHost s)⟩) := rfl
    rw [hform, hcore2, e1, e2, hmain]
    simp

/-- Witness for C10 at a concrete input: the `"https://"`-schemed host
`"https://pi.hole/"` normalizes to `"http://pi.hole"` and renormalizes to
itself. -/
theorem normalizeHost_wellformed_witness :
    normalizeHost "https://pi.hole/" = "http://pi.hole" ∧
    normalizeHost (normalizeHost "https://pi.hole/") = normalizeHost "https://pi.hole/" := by
  have h := normalizeHost_wellformed "https://pi.hole/"
    (by decide) (by decide) (by decide) (by decide) (by decide)
  refine ⟨?_, h.2.2.2⟩
  rw [h.1]
  decide

/-- C2: for a device record present in the coordinator data whose
`last_query` is a number `q`, `is_connected` returns true exactly when
`now - q ≤ away` or some IP of the record is a key of the coordinator's
ARP cache; in particular a record with stale `last_query` and no ARP hit
is reported absent, and one within the threshold present. -/
theorem is_connected_characterization (data : List (String × FEntry)) (mac : String)
    (arp : List (String × String)) (now away : Int) (info : FEntry) (q : Int)
    (hinfo : lookupA data mac = some info) (hq : info.lastQuery = some q) :
    (is_connected data mac arp now away = true ↔
      (now - q ≤ away ∨ ∃ ip ∈ entryIps info, arpHasKey arp ip = true)) := by
  have hval : is_connected data mac arp now away =
      (if (entryIps info).any (fun ip => arpHasKey arp ip) then true
       else decide (now - q ≤ away)) := by
    simp only [is_connected, hinfo, hq]
  rw [hval]
  cases h : (entryIps info).any (fun ip => arpHasKey arp ip) with
  | true =>
    exact iff_of_true rfl (Or.inr (List.any_eq_true.mp h))
  | false =>
    have hno : ∀ ip ∈ entryIps info, ¬ arpHasKey arp ip = true := by
      intro ip hip hk
      have hany : (entryIps info).any (fun ip => arpHasKey arp ip) = true :=
        List.any_eq_true.mpr ⟨ip, hip, hk⟩
      rw [h] at hany
      exact Bool.false_ne_true hany
    rw [if_neg Bool.false_ne_true]
    constructor
    · intro ht
      exact Or.inl (of_decide_eq_true ht)
    · intro ht
      rcases ht with ht | ⟨ip, hip, hk⟩
      · exact decide_eq_true ht
      · exact absurd hk (hno ip hip)

/-- Witness for C2 at concrete inputs: a record seen 900 seconds ago with
an away threshold of 900 seconds and an empty ARP cache is characterized
by the threshold disjunct. -/
theorem is_connected_characterization_witness :
    is_connected [("aa:bb", { ips := "10.0.0.2", lastQuery := some 100 })]
        "aa:bb" [] 1000 900 = true ↔
      ((1000 : Int) - 100 ≤ 900 ∨
        ∃ ip ∈ entryIps { ips := "10.0.0.2", lastQuery := some 100 },
          arpHasKey [] ip = true) :=
  is_connected_characterization _ _ _ _ _ _ _ rfl rfl

/-- Auxiliary: a property of all entry values survives
`upsertWith` when the update function preserves it and establishes it on
the default. -/
theorem upsertWith_prop (P : Entry → Prop) {m : List (String × Entry)}
    {k : String} {dflt : Entry} {f : Entry → Entry}
    (hm : ∀ p ∈ m, P p.2) (hf : ∀ e, P e → P (f e)) (hd : P (f dflt)) :
    ∀ p ∈ upsertWith m k dflt f, P p.2 := by
  unfold upsertWith
  split
  · intro p hp
    obtain ⟨q, hq, hpq⟩ := List.mem_map.mp hp
    by_cases hqk : (q.1 == k) = true
    · rw [if_pos hqk] at hpq
      rw [← hpq]
      exact hf q.2 (hm q hq)
    · rw [if_neg hqk] at hpq
      rw [← hpq]
      exact hm q hq
  · intro p hp
    rcases List.mem_append.mp hp with hp | hp
    · exact hm p hp
    · rw [List.mem_singleton.mp hp]
      exact hd

/-- Auxiliary: a property of all entry values survives a left fold whose
step preserves it. -/
theorem foldl_entry_prop {α : Type} (P : Entry → Prop)
    {step : List (String × Entry) → α → List (String × Entry)}
    (hstep : ∀ m a, (∀ p ∈ m, P p.2) → ∀ p ∈ step m a, P p.2) :
    ∀ (l : List α) (m : List (String × Entry)),
      (∀ p ∈ m, P p.2) → ∀ p ∈ l.foldl step m, P p.2
  | [], _, hm => hm
  | a :: l, m, hm => foldl_entry_prop P hstep l (step m a) (hstep m a hm)

/-- Auxiliary: unfolding of `applyLease`. -/
theorem applyLease_eq (m : List (String × Entry)) (l : Lease) :
    applyLease m l =
      if (⟨pyLowerL l.hwaddr.data⟩ : String).isEmpty then m
      else
        upsertWith m ⟨pyLowerL l.hwaddr.data⟩ {} fun e =>
          { e with
            ips := insertIp e.ips l.ip
            name := if strTruthy l.name && l.name ≠ some "*" then l.name else e.name
            dhcpExpires := l.expires } :=
  rfl

/-- Auxiliary: unfolding of `applyDevice`. -/
theorem applyDevice_eq (m : List (String × Entry)) (d : Device) :
    applyDevice m d =
      if (⟨pyLowerL d.hwaddr.data⟩ : String).isEmpty then m
      else
        upsertWith m ⟨pyLowerL d.hwaddr.data⟩ {} fun e =>
          d.ips.foldl applyIpEntry
            { e with
              interface := d.interface
              firstSeen := d.firstSeen
              lastQuery := d.lastQuery
              numQueries := d.numQueries
              macVendor := d.macVendor } :=
  rfl

/-- Auxiliary: unfolding of `applyIpEntry`. -/
theorem applyIpEntry_eq (e : Entry) (pe : IpEntry) :
    applyIpEntry e pe =
      if !strTruthy (addIp e pe.ip).name && strTruthy pe.name && pe.name ≠ some "*" then
        { addIp e pe.ip with name := pe.name }
      else addIp e pe.ip :=
  rfl

/-- Auxiliary: `addIp` never touches the name. -/
theorem addIp_name (e : Entry) (o : Option String) : (addIp e o).name = e.name := by
  cases o with
  | none => rfl
  | some ip =>
    show (if ip.isEmpty then e else { e with ips := insertIp e.ips (some ip) }).name = e.name
    split <;> rfl

/-- Auxiliary: field selection commutes with a conditional. -/
theorem ite_entry_name (b : Bool) (X Y : Entry) :
    (if b then X else Y).name = if b then X.name else Y.name := by
  cases b <;> rfl

/-- Auxiliary: a conditionally stored name that is only stored when
truthy and different from `"*"` keeps the placeholder invariant. -/
theorem nameUpdate_ok {old new : Option String}
    (hold : old ≠ some "*" ∧ old ≠ some "") (b : Bool)
    (hb : b = true → strTruthy new = true ∧ new ≠ some "*") :
    (if b then new else old) ≠ some "*" ∧ (if b then new else old) ≠ some "" := by
  cases b with
  | false => simpa using hold
  | true =>
    obtain ⟨h1, h2⟩ := hb rfl
    rw [if_pos rfl]
    refine ⟨h2, ?_⟩
    cases new with
    | none => simp
    | some n =>
      intro hc
      have hn : n = "" := by injection hc
      rw [hn] at h1
      exact absurd h1 (by decide)

/-- Auxiliary: the lease loop never stores `"*"` or `""` as a name. -/
theorem applyLease_name_ok {m : List (String × Entry)}
    (hm : ∀ p ∈ m, p.2.name ≠ some "*" ∧ p.2.name ≠ some "") (l : Lease) :
    ∀ p ∈ applyLease m l, p.2.name ≠ some "*" ∧ p.2.name ≠ some "" := by
  rw [applyLease_eq]
  split
  · exact hm
  · refine upsertWith_prop (fun x => x.name ≠ some "*" ∧ x.name ≠ some "")
      hm (fun e he => ?_) ?_
    · exact nameUpdate_ok he _ fun hb =>
        ⟨((Bool.and_eq_true _ _).mp hb).1,
         of_decide_eq_true ((Bool.and_eq_true _ _).mp hb).2⟩
    · exact nameUpdate_ok ⟨by decide, by decide⟩ _ fun hb =>
        ⟨((Bool.and_eq_true _ _).mp hb).1,
         of_decide_eq_true ((Bool.and_eq_true _ _).mp hb).2⟩

/-- Auxiliary: one device IP record never stores `"*"` or `""` as a
name. -/
theorem applyIpEntry_name_ok {e : Entry}
    (he : e.name ≠ some "*" ∧ e.name ≠ some "") (pe : IpEntry) :
    (applyIpEntry e pe).name ≠ some "*" ∧ (applyIpEntry e pe).name ≠ some "" := by
  rw [applyIpEntry_eq, ite_entry_name]
  have hx : (addIp e pe.ip).name ≠ some "*" ∧ (addIp e pe.ip).name ≠ some "" := by
    rw [addIp_name]
    exact he
  exact nameUpdate_ok hx _ fun hb =>
    ⟨((Bool.and_eq_true _ _).mp ((Bool.and_eq_true _ _).mp hb).1).2,
     of_decide_eq_true ((Bool.and_eq_true _ _).mp hb).2⟩

/-- Auxiliary: the whole device loop body never stores `"*"` or `""` as a
name. -/
theorem foldl_applyIpEntry_name_ok :
    ∀ (l : List IpEntry) (e : Entry),
      e.name ≠ some "*" ∧ e.name ≠ some "" →
      (l.foldl applyIpEntry e).name ≠ some "*" ∧ (l.foldl applyIpEntry e).name ≠ some ""
  | [], _, he => he
  | pe :: l, e, he =>
    foldl_applyIpEntry_name_ok l (applyIpEntry e pe) (applyIpEntry_name_ok he pe)

/-- Auxiliary: the device loop never stores `"*"` or `""` as a name. -/
theorem applyDevice_name_ok {m : List (String × Entry)}
    (hm : ∀ p ∈ m, p.2.name ≠ some "*" ∧ p.2.name ≠ some "") (d : Device) :
    ∀ p ∈ applyDevice m d, p.2.name ≠ some "*" ∧ p.2.name ≠ some "" := by
  rw [applyDevice_eq]
  split
  · exact hm
  · refine upsertWith_prop (fun x => x.name ≠ some "*" ∧ x.name ≠ some "")
      hm (fun e he => ?_) ?_
    · exact foldl_applyIpEntry_name_ok d.ips _ he
    · exact foldl_applyIpEntry_name_ok d.ips _
        ⟨fun h => Option.noConfusion (show (none : Option String) = some "*" from h),
         fun h => Option.noConfusion (show (none : Option String) = some "" from h)⟩

/-- Auxiliary: the ARP enrichment never touches names. -/
theorem applyArp_name_ok {m : List (String × Entry)}
    (hm : ∀ p ∈ m, p.2.name ≠ some "*" ∧ p.2.name ≠ some "")
    (arp : List (String × String)) :
    ∀ p ∈ applyArp arp m, p.2.name ≠ some "*" ∧ p.2.name ≠ some "" := by
  unfold applyArp
  intro p hp
  obtain ⟨q, hq, hpq⟩ := List.mem_map.mp hp
  rw [← hpq]
  exact hm q hq

/-- Auxiliary: a property of all values yields a property of any value
found by key lookup. -/
theorem lookupA_prop {β : Type} (P : β → Prop) {m : List (String × β)}
    (hm : ∀ p ∈ m, P p.2) {k : String} {e : β} (he : lookupA m k = some e) : P e := by
  unfold lookupA at he
  cases hf : m.find? (fun p => p.1 == k) with
  | none => rw [hf] at he; exact absurd he (by simp)
  | some q =>
    rw [hf] at he
    obtain rfl : q.2 = e := by injection he
    exact hm q (List.mem_of_find?_eq_some hf)

/-- C7: no entry of the merged (and ARP-enriched) map carries the
placeholder `"*"` — or the empty string — as its name: lease names are
stored only when truthy and different from `"*"`, and per-IP device names
only when no name is present yet and they are truthy and different from
`"*"`. -/
theorem merged_name_never_placeholder (ls : List Lease) (ds : List Device)
    (arp : List (String × String)) (mac : String) (e : Entry)
    (he : lookupA (applyArp arp (mergeLeasesDevices ls ds)) mac = some e) :
    e.name ≠ some "*" ∧ e.name ≠ some "" := by
  refine lookupA_prop (fun x => x.name ≠ some "*" ∧ x.name ≠ some "") ?_ he
  refine applyArp_name_ok ?_ arp
  unfold mergeLeasesDevices
  refine foldl_entry_prop (fun x => x.name ≠ some "*" ∧ x.name ≠ some "")
    (fun m d hm => applyDevice_name_ok hm d) ds _ ?_
  refine foldl_entry_prop (fun x => x.name ≠ some "*" ∧ x.name ≠ some "")
    (fun m l hm => applyLease_name_ok hm l) ls _ ?_
  intro p hp
  exact absurd hp (List.not_mem_nil p)

/-- Witness for C7: a lease whose name field is the placeholder `"*"`
produces an entry with no name at all. -/
theorem merged_name_never_placeholder_witness :
    ({ ips := [some "1.2.3.4"] } : Entry).name ≠ some "*" ∧
    ({ ips := [some "1.2.3.4"] } : Entry).name ≠ some "" :=
  merged_name_never_placeholder
    [{ hwaddr := "AA:BB", ip := some "1.2.3.4", name := some "*" }] [] [] "aa:bb" _
    (by decide)

/-- Auxiliary: membership in a Python-set insertion. -/
theorem insertIp_mem (l : List (Option String)) (y x : Option String) :
    x ∈ insertIp l y ↔ x ∈ l ∨ x = y := by
  unfold insertIp
  split
  case isTrue h =>
    constructor
    · exact Or.inl
    · intro hx
      rcases hx with hx | rfl
      · exact hx
      · exact h
  case isFalse h =>
    simp [List.mem_append]

/-- Auxiliary: field selection commutes with a conditional. -/
theorem ite_entry_ips (b : Bool) (X Y : Entry) :
    (if b then X else Y).ips = if b then X.ips else Y.ips := by
  cases b <;> rfl

/-- Auxiliary: the name update of `applyIpEntry` leaves the IP set of
`addIp` unchanged. -/
theorem applyIpEntry_ips (e : Entry) (pe : IpEntry) :
    (applyIpEntry e pe).ips = (addIp e pe.ip).ips := by
  rw [applyIpEntry_eq, ite_entry_ips]
  split <;> rfl

/-- Auxiliary: adding a non-empty IP inserts it into the set. -/
theorem addIp_ips_of_some {e : Entry} {s : String} (hs : s ≠ "") :
    (addIp e (some s)).ips = insertIp e.ips (some s) := by
  have h' : ¬ s.isEmpty = true := fun h => hs ((String.isEmpty_iff s).mp h)
  simp only [addIp]
  rw [if_neg h']

/-- Auxiliary: membership in the IP set accumulated by the device
`ips` loop, when every listed IP is a truthy string. -/
theorem foldl_applyIpEntry_ips_mem :
    ∀ (L : List IpEntry), (∀ pe ∈ L, pe.ip ≠ none ∧ pe.ip ≠ some "") →
      ∀ (e : Entry) (x : Option String),
        x ∈ (L.foldl applyIpEntry e).ips ↔ x ∈ e.ips ∨ x ∈ L.map IpEntry.ip
  | [], _, e, x => by simp
  | pe :: L, hips, e, x => by
    obtain ⟨hnn, hne⟩ := hips pe (List.mem_cons_self pe L)
    obtain ⟨s, hs⟩ : ∃ s, pe.ip = some s := by
      cases hip : pe.ip with
      | none => exact absurd hip hnn
      | some s => exact ⟨s, rfl⟩
    have hsne : s ≠ "" := by
      intro hcon
      rw [hcon] at hs
      exact hne hs
    have hrec := foldl_applyIpEntry_ips_mem L
      (fun q hq => hips q (List.mem_cons_of_mem pe hq)) (applyIpEntry e pe) x
    rw [List.foldl_cons, hrec, applyIpEntry_ips, hs, addIp_ips_of_some hsne,
      insertIp_mem]
    simp only [List.map_cons, List.mem_cons, hs, or_assoc]

/-- C4: merging one lease and one device record whose hardware addresses
are case-insensitively equal and non-empty yields a map with exactly one
entry, keyed by the lower-cased hardware address, whose IP set is the
union of the lease's IP and all IPs listed in the device record (each
listed IP being a non-empty string). -/
theorem merge_lease_device_ip_union (l : Lease) (d : Device)
    (hmac : (⟨pyLowerL l.hwaddr.data⟩ : String) ≠ "")
    (heq : (⟨pyLowerL l.hwaddr.data⟩ : String) = ⟨pyLowerL d.hwaddr.data⟩)
    (hips : ∀ pe ∈ d.ips, pe.ip ≠ none ∧ pe.ip ≠ some "") :
    ∃ e, mergeLeasesDevices [l] [d] = [((⟨pyLowerL l.hwaddr.data⟩ : String), e)] ∧
      ∀ x, x ∈ e.ips ↔ x = l.ip ∨ x ∈ d.ips.map IpEntry.ip := by
  have hne : (⟨pyLowerL l.hwaddr.data⟩ : String).isEmpty = false := by
    rw [Bool.eq_false_iff]
    intro h
    exact hmac ((String.isEmpty_iff _).mp h)
  have hne' : (⟨pyLowerL d.hwaddr.data⟩ : String).isEmpty = false := by
    rw [← heq]
    exact hne
  have hL : applyLease [] l = [((⟨pyLowerL l.hwaddr.data⟩ : String),
      { ips := [l.ip],
        name := if strTruthy l.name && l.name ≠ some "*" then l.name else none,
        dhcpExpires := l.expires })] := by
    rw [applyLease_eq, hne]
    simp [upsertWith, insertIp]
  have hD : applyDevice [((⟨pyLowerL l.hwaddr.data⟩ : String),
      { ips := [l.ip],
        name := if strTruthy l.name && l.name ≠ some "*" then l.name else none,
        dhcpExpires := l.expires })] d
      = [((⟨pyLowerL l.hwaddr.data⟩ : String),
          d.ips.foldl applyIpEntry
            { ips := [l.ip],
              name := if strTruthy l.name && l.name ≠ some "*" then l.name else none,
              dhcpExpires := l.expires,
              interface := d.interface, firstSeen := d.firstSeen,
              lastQuery := d.lastQuery, numQueries := d.numQueries,
              macVendor := d.macVendor })] := by
    rw [applyDevice_eq, ← heq, hne]
    simp [upsertWith]
  refine ⟨d.ips.foldl applyIpEntry
      { ips := [l.ip],
        name := if strTruthy l.name && l.name ≠ some "*" then l.name else none,
        dhcpExpires := l.expires,
        interface := d.interface, firstSeen := d.firstSeen,
        lastQuery := d.lastQuery, numQueries := d.numQueries,
        macVendor := d.macVendor }, ?_, ?_⟩
  · show applyDevice (applyLease [] l) d = _
    rw [hL, hD]
  · intro x
    rw [foldl_applyIpEntry_ips_mem d.ips hips _ x]
    simp

/-- Witness for C4: a lease at `10.0.0.5` and a device record listing
`10.0.0.6`, with hardware addresses differing only in case, merge into
one entry whose IP set holds both addresses. -/
theorem merge_lease_device_ip_union_witness :
    ∃ e, mergeLeasesDevices
        [{ hwaddr := "AA:BB:CC:DD:EE:01", ip := some "10.0.0.5", name := some "printer" }]
        [{ hwaddr := "aa:bb:cc:dd:ee:01", ips := [{ ip := some "10.0.0.6" }] }]
        = [("aa:bb:cc:dd:ee:01", e)] ∧
      ∀ x, x ∈ e.ips ↔
        x = some "10.0.0.5" ∨
        x ∈ ([{ ip := some "10.0.0.6" }] : List IpEntry).map IpEntry.ip :=
  merge_lease_device_ip_union
    { hwaddr := "AA:BB:CC:DD:EE:01", ip := some "10.0.0.5", name := some "printer" }
    { hwaddr := "aa:bb:cc:dd:ee:01", ips := [{ ip := some "10.0.0.6" }] }
    (by decide) (by decide) (by decide)

/-- Auxiliary: one entry formats successfully exactly when its IP set
holds no `None`. -/
theorem formatEntry_isSome (e : Entry) :
    (formatEntry e).isSome = true ↔ none ∉ e.ips := by
  unfold formatEntry
  split
  case isTrue h => simp [h]
  case isFalse h => simp [h]

/-- Auxiliary: the formatting loop succeeds exactly when no entry's IP
set holds a `None`. -/
theorem formatMap_isSome :
    ∀ (m : List (String × Entry)),
      (formatMap m).isSome = true ↔ ∀ p ∈ m, none ∉ p.2.ips
  | [] => by
    constructor
    · intro _ p hp
      exact absurd hp (List.not_mem_nil p)
    · intro _
      rfl
  | q :: rest => by
    have hrec := formatMap_isSome rest
    constructor
    · intro h p hp
      cases hfe : formatEntry q.2 with
      | none => rw [formatMap, hfe] at h; simp at h
      | some fe =>
        cases hfm : formatMap rest with
        | none => rw [formatMap, hfe, hfm] at h; simp at h
        | some frest =>
          rcases List.mem_cons.mp hp with rfl | hp'
          · exact (formatEntry_isSome p.2).mp (by rw [hfe]; rfl)
          · exact (hrec.mp (by rw [hfm]; rfl)) p hp'
    · intro h
      have h1 : none ∉ q.2.ips := h q (List.mem_cons_self q rest)
      have h2 : (formatMap rest).isSome = true :=
        hrec.mpr fun p hp => h p (List.mem_cons_of_mem q hp)
      rw [formatMap]
      unfold formatEntry
      rw [if_neg h1]
      cases hfm : formatMap rest with
      | none => rw [hfm] at h2; exact absurd h2 (by simp)
      | some frest => simp

/-- Auxiliary: generic map-wide invariant through one
insert-or-update. -/
theorem upsertWith_all_iff (P : Entry → Prop) (C : Prop) {m : List (String × Entry)}
    {k : String} {dflt : Entry} {f : Entry → Entry}
    (hf : ∀ e, P (f e) ↔ (P e ∧ C)) (hd : P (f dflt) ↔ C) :
    (∀ p ∈ upsertWith m k dflt f, P p.2) ↔ ((∀ p ∈ m, P p.2) ∧ C) := by
  unfold upsertWith
  split
  case isTrue hc =>
    obtain ⟨q0, hq0, hq0k⟩ := List.any_eq_true.mp hc
    constructor
    · intro h
      have hC : C := by
        have hmem : (q0.1, f q0.2) ∈
            m.map (fun p => if p.1 == k then (p.1, f p.2) else p) :=
          List.mem_map.mpr ⟨q0, hq0, by rw [if_pos hq0k]⟩
        exact ((hf q0.2).mp (h _ hmem)).2
      refine ⟨fun p hp => ?_, hC⟩
      by_cases hpk : (p.1 == k) = true
      · have hmem : (p.1, f p.2) ∈
            m.map (fun p => if p.1 == k then (p.1, f p.2) else p) :=
          List.mem_map.mpr ⟨p, hp, by rw [if_pos hpk]⟩
        exact ((hf p.2).mp (h _ hmem)).1
      · have hmem : p ∈ m.map (fun p => if p.1 == k then (p.1, f p.2) else p) :=
          List.mem_map.mpr ⟨p, hp, by rw [if_neg hpk]⟩
        exact h _ hmem
    · rintro ⟨hQ, hC⟩ p hp
      obtain ⟨q, hq, hpq⟩ := List.mem_map.mp hp
      by_cases hqk : (q.1 == k) = true
      · rw [if_pos hqk] at hpq
        rw [← hpq]
        exact (hf q.2).mpr ⟨hQ q hq, hC⟩
      · rw [if_neg hqk] at hpq
        rw [← hpq]
        exact hQ q hq
  case isFalse hc =>
    constructor
    · intro h
      refine ⟨fun p hp => h p (List.mem_append.mpr (Or.inl hp)), ?_⟩
      exact hd.mp (h (k, f dflt) (List.mem_append.mpr (Or.inr (List.mem_singleton.mpr rfl))))
    · rintro ⟨hQ, hC⟩ p hp
      rcases List.mem_append.mp hp with hp | hp
      · exact hQ p hp
      · rw [List.mem_singleton.mp hp]
        exact hd.mpr hC

/-- Auxiliary: the device `ips` loop never puts a `None` into the set. -/
theorem foldl_applyIpEntry_none_mem :
    ∀ (L : List IpEntry) (e : Entry),
      none ∈ (L.foldl applyIpEntry e).ips ↔ none ∈ e.ips
  | [], _ => Iff.rfl
  | pe :: L, e => by
    rw [List.foldl_cons, foldl_applyIpEntry_none_mem L (applyIpEntry e pe),
      applyIpEntry_ips]
    cases hip : pe.ip with
    | none => exact Iff.rfl
    | some ip =>
      simp only [addIp]
      split
      · exact Iff.rfl
      · rw [show ({ e with ips := insertIp e.ips (some ip) } : Entry).ips
            = insertIp e.ips (some ip) from rfl, insertIp_mem]
        simp

/-- Auxiliary: the ARP enrichment never puts a `None` into a set. -/
theorem arpFold_none_mem (k : String) :
    ∀ (arp : List (String × String)) (s : List (Option String)),
      none ∈ arp.foldl (fun s q => if q.2 == k then insertIp s (some q.1) else s) s ↔
        none ∈ s
  | [], _ => Iff.rfl
  | q :: arp, s => by
    rw [List.foldl_cons, arpFold_none_mem k arp _]
    split
    · rw [insertIp_mem]
      simp
    · exact Iff.rfl

/-- Auxiliary: the lease loop puts a `None` into some IP set exactly when
a lease with a non-empty hardware address lacks an `"ip"` value. -/
theorem applyLease_none_all (m : List (String × Entry)) (l : Lease) :
    (∀ p ∈ applyLease m l, none ∉ p.2.ips) ↔
      ((∀ p ∈ m, none ∉ p.2.ips) ∧
        ((⟨pyLowerL l.hwaddr.data⟩ : String).isEmpty = false → l.ip ≠ none)) := by
  rw [applyLease_eq]
  split
  case isTrue hmac =>
    constructor
    · intro h
      refine ⟨h, fun hcon => ?_⟩
      rw [hmac] at hcon
      exact absurd hcon (by simp)
    · exact fun h => h.1
  case isFalse hmac =>
    have hmac' : (⟨pyLowerL l.hwaddr.data⟩ : String).isEmpty = false :=
      Bool.eq_false_iff.mpr hmac
    have hf : ∀ e : Entry,
        (none ∉ ({ e with
            ips := insertIp e.ips l.ip
            name := if strTruthy l.name && l.name ≠ some "*" then l.name else e.name
            dhcpExpires := l.expires } : Entry).ips) ↔
          (none ∉ e.ips ∧ l.ip ≠ none) := by
      intro e
      rw [show ({ e with
            ips := insertIp e.ips l.ip
            name := if strTruthy l.name && l.name ≠ some "*" then l.name else e.name
            dhcpExpires := l.expires } : Entry).ips = insertIp e.ips l.ip from rfl,
        insertIp_mem]
      simp [not_or, eq_comm]
    rw [upsertWith_all_iff (fun e => none ∉ e.ips) (l.ip ≠ none) hf (by simpa using hf {})]
    constructor
    · rintro ⟨h1, h2⟩
      exact ⟨h1, fun _ => h2⟩
    · rintro ⟨h1, h2⟩
      exact ⟨h1, h2 hmac'⟩

/-- Auxiliary: the device loop neither adds nor removes `None`s. -/
theorem applyDevice_none_all (m : List (String × Entry)) (d : Device) :
    (∀ p ∈ applyDevice m d, none ∉ p.2.ips) ↔ (∀ p ∈ m, none ∉ p.2.ips) := by
  rw [applyDevice_eq]
  split
  · exact Iff.rfl
  · have hf : ∀ e : Entry,
        (none ∉ (d.ips.foldl applyIpEntry
          { e with
            interface := d.interface
            firstSeen := d.firstSeen
            lastQuery := d.lastQuery
            numQueries := d.numQueries
            macVendor := d.macVendor }).ips) ↔ (none ∉ e.ips ∧ True) := by
      intro e
      rw [foldl_applyIpEntry_none_mem]
      simp
    rw [upsertWith_all_iff (fun e => none ∉ e.ips) True hf (by simpa using hf {})]
    simp

/-- Auxiliary: the ARP enrichment preserves `None`-freedom of the map. -/
theorem applyArp_none_all (arp : List (String × String)) (m : List (String × Entry)) :
    (∀ p ∈ applyArp arp m, none ∉ p.2.ips) ↔ (∀ p ∈ m, none ∉ p.2.ips) := by
  unfold applyArp
  constructor
  · intro h p hp
    have hm := h _ (List.mem_map.mpr ⟨p, hp, rfl⟩)
    intro hmem
    exact hm ((arpFold_none_mem p.1 arp p.2.ips).mpr hmem)
  · intro h p hp
    obtain ⟨q, hq, hpq⟩ := List.mem_map.mp hp
    rw [← hpq]
    intro hmem
    exact h q hq ((arpFold_none_mem q.1 arp q.2.ips).mp hmem)

/-- Auxiliary: `None`-freedom through the whole device fold. -/
theorem foldl_applyDevice_none_all :
    ∀ (ds : List Device) (m : List (String × Entry)),
      (∀ p ∈ ds.foldl applyDevice m, none ∉ p.2.ips) ↔ (∀ p ∈ m, none ∉ p.2.ips)
  | [], _ => Iff.rfl
  | d :: ds, m =>
    (foldl_applyDevice_none_all ds (applyDevice m d)).trans (applyDevice_none_all m d)

/-- Auxiliary: `None`-freedom through the whole lease fold. -/
theorem foldl_applyLease_none_all :
    ∀ (ls : List Lease) (m : List (String × Entry)),
      (∀ p ∈ ls.foldl applyLease m, none ∉ p.2.ips) ↔
        ((∀ p ∈ m, none ∉ p.2.ips) ∧
          ∀ l ∈ ls, (⟨pyLowerL l.hwaddr.data⟩ : String).isEmpty = false → l.ip ≠ none)
  | [], m => by simp
  | l :: ls, m => by
    rw [List.foldl_cons, foldl_applyLease_none_all ls (applyLease m l),
      applyLease_none_all]
    simp [List.forall_mem_cons, and_assoc]

/-- C9: the final formatting step (sort every entry's IP set and join it)
succeeds if and only if every lease with a non-empty hardware address
carries an `"ip"` value.  A lease lacking `"ip"` inserts `None` into its
entry's set, and the resulting `TypeError` (raised by `sorted` over mixed
`None`/`str`, or by `join` over a lone `None`) is reached exactly when
that precondition fails; devices and ARP rows only ever contribute
strings. -/
theorem format_succeeds_iff (ls : List Lease) (ds : List Device)
    (arp : List (String × String)) :
    (formatMap (applyArp arp (mergeLeasesDevices ls ds))).isSome = true ↔
      ∀ l ∈ ls, (⟨pyLowerL l.hwaddr.data⟩ : String).isEmpty = false → l.ip ≠ none := by
  rw [formatMap_isSome, applyArp_none_all]
  unfold mergeLeasesDevices
  rw [foldl_applyDevice_none_all, foldl_applyLease_none_all]
  simp

/-- Witness for C9: with one ip-less lease the formatting step fails, and
the characterization applies to that concrete input. -/
theorem format_succeeds_iff_witness :
    ((formatMap (applyArp []
        (mergeLeasesDevices [{ hwaddr := "aa:bb", ip := none }] []))).isSome = true ↔
      ∀ l ∈ [({ hwaddr := "aa:bb", ip := none } : Lease)],
        (⟨pyLowerL l.hwaddr.data⟩ : String).isEmpty = false → l.ip ≠ none) :=
  format_succeeds_iff [{ hwaddr := "aa:bb", ip := none }] [] []

/-- Auxiliary: folding the per-line parses with a dict store equals
folding the store over the successfully parsed pairs. -/
theorem foldLines_eq :
    ∀ (lines : List (List Char)) (m : List (String × String)),
      lines.foldl
          (fun m line =>
            match lineEntry line with
            | some e => upsertA m e.1 e.2
            | none => m) m
        = (lines.filterMap lineEntry).foldl (fun m e => upsertA m e.1 e.2) m
  | [], _ => rfl
  | line :: lines, m => by
    rw [List.foldl_cons, List.filterMap_cons]
    cases hle : lineEntry line with
    | none => exact foldLines_eq lines m
    | some e => rw [List.foldl_cons]; exact foldLines_eq lines (upsertA m e.1 e.2)

/-- Auxiliary: `parseArp` is the dict fold of the per-line parses. -/
theorem parseArp_eq_foldUpsert (out : String) :
    parseArp out =
      ((splitLines (pyStripL out.data)).filterMap lineEntry).foldl
        (fun m e => upsertA m e.1 e.2) [] :=
  foldLines_eq (splitLines (pyStripL out.data)) []

/-- Auxiliary: one dict store keeps the keys duplicate-free. -/
theorem upsertA_keys_nodup {m : List (String × String)}
    (h : (m.map Prod.fst).Nodup) (k v : String) :
    ((upsertA m k v).map Prod.fst).Nodup := by
  unfold upsertA
  split
  case isTrue hc =>
    have hkeys : ((m.map fun p => if p.1 == k then (p.1, v) else p).map Prod.fst)
        = m.map Prod.fst := by
      rw [List.map_map]
      refine List.map_congr_left fun p _ => ?_
      show (if p.1 == k then (p.1, v) else p).1 = p.1
      split <;> rfl
    rw [hkeys]
    exact h
  case isFalse hc =>
    have hnot : k ∉ m.map Prod.fst := by
      intro hk
      obtain ⟨p, hp, hpk⟩ := List.mem_map.mp hk
      exact hc (List.any_eq_true.mpr ⟨p, hp, by rw [hpk]; exact beq_self_eq_true k⟩)
    simp [List.nodup_append, h, hnot]

/-- Auxiliary: the dict fold keeps the keys duplicate-free. -/
theorem foldUpsert_keys_nodup :
    ∀ (es : List (String × String)) (m : List (String × String)),
      (m.map Prod.fst).Nodup →
      ((es.foldl (fun m e => upsertA m e.1 e.2) m).map Prod.fst).Nodup
  | [], _, hm => hm
  | e :: es, m, hm =>
    foldUpsert_keys_nodup es (upsertA m e.1 e.2) (upsertA_keys_nodup hm e.1 e.2)

/-- Auxiliary: lookup in a dict with one more pair in front. -/
theorem lookupA_cons {β : Type} (q : String × β) (m : List (String × β)) (k : String) :
    lookupA (q :: m) k = if (q.1 == k) = true then some q.2 else lookupA m k := by
  unfold lookupA
  simp only [List.find?]
  cases hq : (q.1 == k) with
  | true => simp [hq]
  | false => simp [hq]

/-- Auxiliary: lookup in a concatenation of dicts. -/
theorem lookupA_append {β : Type} :
    ∀ (m₁ m₂ : List (String × β)) (k : String),
      lookupA (m₁ ++ m₂) k
        = match lookupA m₁ k with
          | some v => some v
          | none => lookupA m₂ k
  | [], _, _ => rfl
  | q :: m₁, m₂, k => by
    rw [List.cons_append, lookupA_cons, lookupA_cons]
    by_cases hq : (q.1 == k) = true
    · rw [if_pos hq, if_pos hq]
    · rw [if_neg hq, if_neg hq]
      exact lookupA_append m₁ m₂ k

/-- Auxiliary: lookup of an absent key. -/
theorem lookupA_eq_none_of_no_key {β : Type} :
    ∀ (m : List (String × β)) (k : String),
      m.any (fun p => p.1 == k) = false → lookupA m k = none
  | [], _, _ => rfl
  | q :: m, k, h => by
    rw [List.any_cons, Bool.or_eq_false_iff] at h
    rw [lookupA_cons, if_neg (by rw [h.1]; exact Bool.false_ne_true)]
    exact lookupA_eq_none_of_no_key m k h.2

/-- Auxiliary: updating key `k` does not change lookups of other keys. -/
theorem lookupA_map_upd_ne {k v k' : String} (hne : k' ≠ k) :
    ∀ (m : List (String × String)),
      lookupA (m.map fun p => if p.1 == k then (p.1, v) else p) k' = lookupA m k'
  | [] => rfl
  | p :: m => by
    rw [List.map_cons, lookupA_cons, lookupA_cons]
    have hkey : (if (p.1 == k) = true then (p.1, v) else p).1 = p.1 := by
      split <;> rfl
    rw [hkey]
    by_cases hk' : (p.1 == k') = true
    · rw [if_pos hk', if_pos hk']
      have hpk : (p.1 == k) = false := by
        rw [beq_eq_false_iff_ne]
        intro hc
        exact hne ((eq_of_beq hk').symm.trans hc)
      rw [if_neg (by rw [hpk]; exact Bool.false_ne_true)]
    · rw [if_neg hk', if_neg hk']
      exact lookupA_map_upd_ne hne m

/-- Auxiliary: updating a present key `k` makes lookups of `k` return the
new value. -/
theorem lookupA_map_upd_eq {k v : String} :
    ∀ (m : List (String × String)), m.any (fun p => p.1 == k) = true →
      lookupA (m.map fun p => if p.1 == k then (p.1, v) else p) k = some v
  | [], hc => by simp at hc
  | p :: m, hc => by
    rw [List.map_cons, lookupA_cons]
    have hkey : (if (p.1 == k) = true then (p.1, v) else p).1 = p.1 := by
      split <;> rfl
    rw [hkey]
    by_cases hpk : (p.1 == k) = true
    · rw [if_pos hpk]
      have hval : (if (p.1 == k) = true then (p.1, v) else p).2 = v := by
        rw [if_pos hpk]
      rw [hval]
    · rw [if_neg hpk]
      have hc' : m.any (fun p => p.1 == k) = true := by
        rw [List.any_cons] at hc
        rcases Bool.or_eq_true _ _ |>.mp hc with h | h
        · exact absurd h hpk
        · exact h
      exact lookupA_map_upd_eq m hc'

/-- Auxiliary: lookup after one dict store. -/
theorem lookupA_upsertA (m : List (String × String)) (k v k' : String) :
    lookupA (upsertA m k v) k' = if k' = k then some v else lookupA m k' := by
  unfold upsertA
  split
  case isTrue hc =>
    by_cases hk : k' = k
    · rw [if_pos hk, hk]
      exact lookupA_map_upd_eq m hc
    · rw [if_neg hk]
      exact lookupA_map_upd_ne hk m
  case isFalse hc =>
    rw [lookupA_append]
    by_cases hk : k' = k
    · rw [if_pos hk, hk]
      rw [lookupA_eq_none_of_no_key m k (Bool.eq_false_iff.mpr hc)]
      rw [lookupA_cons, if_pos (beq_self_eq_true k)]
    · rw [if_neg hk]
      have hsing : lookupA [(k, v)] k' = none := by
        rw [lookupA_cons, if_neg]
        · rfl
        · intro hb
          exact hk (eq_of_beq hb).symm
      rw [hsing]
      cases lookupA m k' <;> rfl

/-- Auxiliary: lookup through the dict fold is the last stored value. -/
theorem lookupA_foldUpsert :
    ∀ (es : List (String × String)) (m : List (String × String)) (k : String),
      lookupA (es.foldl (fun m e => upsertA m e.1 e.2) m) k
        = match lastVal k es with
          | some v => some v
          | none => lookupA m k
  | [], _, _ => rfl
  | e :: es, m, k => by
    rw [List.foldl_cons, lookupA_foldUpsert es (upsertA m e.1 e.2) k, lookupA_upsertA]
    rw [show lastVal k (e :: es)
        = (match lastVal k es with
           | some v => some v
           | none => if e.1 == k then some e.2 else none) from rfl]
    cases hlv : lastVal k es with
    | some v => rfl
    | none =>
      by_cases hk : k = e.1
      · have hb : (e.1 == k) = true := by rw [hk]; exact beq_self_eq_true e.1
        rw [if_pos hk, hb]
        rfl
      · have hb : (e.1 == k) = false := by
          rw [beq_eq_false_iff_ne]
          exact fun hc => hk hc.symm
        rw [if_neg hk, hb]
        rfl

/-- Auxiliary: a hex digit is unchanged by the dash replacement. -/
theorem dashChar_of_hex {c : Char} (h : isHexLower c = true) :
    (if c = '-' then ':' else c) = c := by
  rw [if_neg]
  intro hc
  rw [hc] at h
  exact absurd h (by decide)

/-- Auxiliary: a MAC separator becomes a colon under the dash
replacement. -/
theorem dashChar_of_sep {c : Char} (h : isMacSep c = true) :
    (if c = '-' then ':' else c) = ':' := by
  have h' : c = ':' ∨ c = '-' := by
    simpa [isMacSep, Bool.or_eq_true, decide_eq_true_eq] using h
  rcases h' with rfl | rfl <;> rfl

/-- Auxiliary: a token matching the MAC regular expression normalizes to
the lower-case colon-separated shape. -/
theorem isMacToken_normalized (l : List Char) (h : isMacToken l = true) :
    isColonMac ⟨dashToColonL l⟩ = true := by
  unfold isMacToken at h
  split at h
  case h_2 => exact absurd h (by simp)
  case h_1 a1 a2 s1 b1 b2 s2 c1 c2 s3 d1 d2 s4 e1 e2 s5 f1 f2 =>
    simp only [Bool.and_eq_true, and_assoc] at h
    obtain ⟨h1, h2, h3, h4, h5, h6, h7, h8, h9, h10, h11, h12, h13, h14, h15,
      h16, h17⟩ := h
    show isColonMacL (dashToColonL [a1, a2, s1, b1, b2, s2, c1, c2, s3, d1, d2,
      s4, e1, e2, s5, f1, f2]) = true
    simp only [dashToColonL, List.map_cons, List.map_nil]
    rw [dashChar_of_hex h1, dashChar_of_hex h2, dashChar_of_sep h3,
      dashChar_of_hex h4, dashChar_of_hex h5, dashChar_of_sep h6,
      dashChar_of_hex h7, dashChar_of_hex h8, dashChar_of_sep h9,
      dashChar_of_hex h10, dashChar_of_hex h11, dashChar_of_sep h12,
      dashChar_of_hex h13, dashChar_of_hex h14, dashChar_of_sep h15,
      dashChar_of_hex h16, dashChar_of_hex h17]
    simp [isColonMacL, h1, h2, h4, h5, h7, h8, h10, h11, h13, h14, h16, h17]

/-- Auxiliary: a successfully parsed line yields a normalized MAC
value. -/
theorem lineEntry_snd_colonMac (line : List Char) (pr : String × String)
    (h : lineEntry line = some pr) : isColonMac pr.2 = true := by
  unfold lineEntry at h
  dsimp only at h
  split at h
  · exact absurd h (by simp)
  · split at h
    · split at h
      case h_1 p hfind =>
        split at h
        case h_1 ip parts' hparts =>
          have hp := List.find?_some hfind
          obtain rfl : (⟨ip⟩, (⟨dashToColonL (pyLowerL p)⟩ : String)) = pr := by
            injection h
          exact isMacToken_normalized (pyLowerL p) hp
        case h_2 => exact absurd h (by simp)
      case h_2 => exact absurd h (by simp)
    · exact absurd h (by simp)

/-- Auxiliary: a pair in the upserted dict is an old pair or carries the
stored value. -/
theorem upsertA_values (m : List (String × String)) (k v : String) :
    ∀ q ∈ upsertA m k v, q ∈ m ∨ q.2 = v := by
  unfold upsertA
  split
  · intro q hq
    obtain ⟨p, hp, hpq⟩ := List.mem_map.mp hq
    by_cases hpk : (p.1 == k) = true
    · rw [if_pos hpk] at hpq
      right
      rw [← hpq]
    · rw [if_neg hpk] at hpq
      left
      rw [← hpq]
      exact hp
  · intro q hq
    rcases List.mem_append.mp hq with hq | hq
    · exact Or.inl hq
    · right
      rw [List.mem_singleton.mp hq]

/-- Auxiliary: every value of the dict fold comes from the stored
pairs. -/
theorem foldUpsert_values :
    ∀ (es : List (String × String)) (m : List (String × String)),
      ∀ q ∈ es.foldl (fun m e => upsertA m e.1 e.2) m, q ∈ m ∨ q.2 ∈ es.map Prod.snd
  | [], _, _, hq => Or.inl hq
  | e :: es, m, q, hq => by
    rw [List.foldl_cons] at hq
    rcases foldUpsert_values es (upsertA m e.1 e.2) q hq with h | h
    · rcases upsertA_values m e.1 e.2 q h with h' | h'
      · exact Or.inl h'
      · right
        rw [List.map_cons]
        exact List.mem_cons.mpr (Or.inl h')
    · right
      rw [List.map_cons]
      exact List.mem_cons_of_mem _ h

/-- C8 (amended): the map returned by `_get_arp_table` holds one pair per
distinct leading IP among the non-empty lines with at least five
whitespace-separated fields and a token matching the MAC pattern; the
value stored for an IP is the normalized MAC of the last such line for
that IP (a later line overwrites an earlier one with the same IP); every
stored value is a lower-case colon-separated MAC; all other lines
contribute nothing. -/
theorem parseArp_characterization (out : String) :
    ((parseArp out).map Prod.fst).Nodup ∧
    (∀ ip, lookupA (parseArp out) ip
        = lastVal ip ((splitLines (pyStripL out.data)).filterMap lineEntry)) ∧
    (∀ p ∈ parseArp out, isColonMac p.2 = true) := by
  refine ⟨?_, fun ip => ?_, fun p hp => ?_⟩
  · rw [parseArp_eq_foldUpsert]
    exact foldUpsert_keys_nodup _ [] (by simp)
  · rw [parseArp_eq_foldUpsert, lookupA_foldUpsert]
    cases lastVal ip ((splitLines (pyStripL out.data)).filterMap lineEntry) <;> rfl
  · rw [parseArp_eq_foldUpsert] at hp
    rcases foldUpsert_values _ [] p hp with h | h
    · exact absurd h (List.not_mem_nil p)
    · obtain ⟨pr, hpr, hsnd⟩ := List.mem_map.mp h
      obtain ⟨line, _, hle⟩ := List.mem_filterMap.mp hpr
      have := lineEntry_snd_colonMac line pr hle
      rw [hsnd] at this
      exact this

/-- Witness for C8 at a concrete output: one `ip neigh` line parses into
the pair characterized by the theorem. -/
theorem parseArp_characterization_witness :
    lookupA (parseArp "192.168.0.7 dev eth0 lladdr AA-BB-CC-DD-EE-FF REACHABLE")
        "192.168.0.7"
      = lastVal "192.168.0.7"
          ((splitLines (pyStripL
            ("192.168.0.7 dev eth0 lladdr AA-BB-CC-DD-EE-FF REACHABLE" : String).data)).filterMap
            lineEntry) :=
  (parseArp_characterization "192.168.0.7 dev eth0 lladdr AA-BB-CC-DD-EE-FF REACHABLE").2.1
    "192.168.0.7"

/-- C8 counterexample: two qualifying lines that share the leading IP
produce a single map pair, not one pair per line, so the claim "one
ip-to-mac pair per non-empty line with at least 5 fields and a MAC token"
is false on the code. -/
theorem parseArp_counterexample :
    (parseArp "1.1.1.1 dev eth0 lladdr aa:bb:cc:dd:ee:ff REACHABLE\n1.1.1.1 dev eth0 lladdr 11:22:33:44:55:66 REACHABLE").length = 1 ∧
    ((splitLines (pyStripL
        ("1.1.1.1 dev eth0 lladdr aa:bb:cc:dd:ee:ff REACHABLE\n1.1.1.1 dev eth0 lladdr 11:22:33:44:55:66 REACHABLE" : String).data)).filterMap
        lineEntry).length = 2 := by
  constructor <;> decide

/-- Auxiliary: outcome analysis of the fetch half of one update call:
assuming the characterization for the run a 401 would re-enter, the step
fails exactly when it saw a failed authentication or a client
error/timeout, and otherwise returns the formatted merge of some
successfully fetched payloads. -/
theorem tickStep_characterization (env : Env) (r : TickRun) (s : String) (a : Nat)
    (hr : r.outcome ≠ .outOfFuel → r.outcome ≠ .typeError →
      ((r.outcome = .failed ↔ (r.sawAuthFail = true ∨ r.sawNetErr = true)) ∧
       (r.outcome ≠ .failed →
         ∃ s' ls ds fm, env.leases s' = .ok ls ∧ env.devices s' = .ok ds ∧
           formatMap (applyArp (envArp env) (mergeLeasesDevices ls ds)) = some fm ∧
           r.outcome = .ok fm))) :
    (tickStep env r s a).outcome ≠ .outOfFuel →
    (tickStep env r s a).outcome ≠ .typeError →
    (((tickStep env r s a).outcome = .failed ↔
        ((tickStep env r s a).sawAuthFail = true ∨ (tickStep env r s a).sawNetErr = true)) ∧
     ((tickStep env r s a).outcome ≠ .failed →
       ∃ s' ls ds fm, env.leases s' = .ok ls ∧ env.devices s' = .ok ds ∧
         formatMap (applyArp (envArp env) (mergeLeasesDevices ls ds)) = some fm ∧
         (tickStep env r s a).outcome = .ok fm)) := by
  unfold tickStep
  cases hl : env.leases s with
  | unauthorized =>
    intro hterm hfmt
    exact hr hterm hfmt
  | netErr =>
    intro _ _
    constructor
    · simp
    · intro hne
      exact absurd rfl hne
  | ok ls =>
    cases hd : env.devices s with
    | unauthorized =>
      intro hterm hfmt
      exact hr hterm hfmt
    | netErr =>
      intro _ _
      constructor
      · simp
      · intro hne
        exact absurd rfl hne
    | ok ds =>
      dsimp only
      cases hf : formatMap (applyArp (envArp env) (mergeLeasesDevices ls ds)) with
      | none =>
        intro _ hfmt
        exact absurd rfl hfmt
      | some fm =>
        intro _ _
        constructor
        · simp
        · intro _
          exact ⟨s, ls, ds, fm, hl, hd, hf, rfl⟩

/-- C6 (amended): over terminating runs that do not hit the formatting
`TypeError` (that is, every lease carries an `"ip"`), one call of
`_async_update_data` raises `UpdateFailed` exactly when an
`_authenticate` call failed while no session id was cached or a client
error/timeout occurred during a fetch; on any other such outcome it
returns the formatted merge of successfully fetched leases and devices.
(A lease without `"ip"` instead escapes with an uncaught `TypeError`, and
endless 401 responses make the call recurse without terminating.) -/
theorem tick_failed_iff :
    ∀ (fuel : Nat) (env : Env) (sid : Option String),
      (tickAux env fuel sid).outcome ≠ .outOfFuel →
      (tickAux env fuel sid).outcome ≠ .typeError →
      (((tickAux env fuel sid).outcome = .failed ↔
          ((tickAux env fuel sid).sawAuthFail = true ∨
            (tickAux env fuel sid).sawNetErr = true)) ∧
       ((tickAux env fuel sid).outcome ≠ .failed →
         ∃ s ls ds fm, env.leases s = .ok ls ∧ env.devices s = .ok ds ∧
           formatMap (applyArp (envArp env) (mergeLeasesDevices ls ds)) = some fm ∧
           (tickAux env fuel sid).outcome = .ok fm))
  | 0, _, _ => fun hterm _ => absurd rfl hterm
  | fuel + 1, env, sid => by
    have ih := tick_failed_iff fuel env none
    cases sid with
    | some s => exact tickStep_characterization env _ s 0 ih
    | none =>
      cases hauth : env.auth with
      | none =>
        have he : tickAux env (fuel + 1) none = ⟨.failed, 1, true, false⟩ := by
          simp [tickAux, hauth]
        rw [he]
        intro _ _
        constructor
        · simp
        · intro hne
          exact absurd rfl hne
      | some s =>
        have he : tickAux env (fuel + 1) none
            = tickStep env (tickAux env fuel none) s 1 := by
          simp [tickAux, hauth]
        rw [he]
        exact tickStep_characterization env _ s 1 ih

/-- C6 counterexample: a tick whose authentication and both fetches
succeed but whose lease list holds a lease without an `"ip"` value
neither raises `UpdateFailed` (no auth failure, no client error) nor
returns a merged map — it escapes with an uncaught `TypeError`. -/
theorem tick_typeError_counterexample :
    tickAux noIpLeaseEnv 1 none = ⟨.typeError, 1, false, false⟩ := by
  decide

/-- Witness for C6 at a healthy server: the characterization applies to a
terminating, error-free tick. -/
theorem tick_failed_iff_witness :
    ((tickAux healthyEnv 1 none).outcome = .failed ↔
      ((tickAux healthyEnv 1 none).sawAuthFail = true ∨
        (tickAux healthyEnv 1 none).sawNetErr = true)) ∧
    ((tickAux healthyEnv 1 none).outcome ≠ .failed →
      ∃ s ls ds fm, healthyEnv.leases s = .ok ls ∧ healthyEnv.devices s = .ok ds ∧
        formatMap (applyArp (envArp healthyEnv) (mergeLeasesDevices ls ds)) = some fm ∧
        (tickAux healthyEnv 1 none).outcome = .ok fm) :=
  tick_failed_iff 1 healthyEnv none (by decide) (by decide)
